import Mathlib

/-!
Shallow embedding of the core of `trader-orchestrator` (IBKR TWS auto trader):

* `src/trader-orchestrator/src/ibkr/connector.py` — `IBConnector`: connection
  state, retrying `connect`, `disconnect`, and the event handlers
  `_on_connected` / `_on_disconnected` / `_on_error` that drive the observer
  callbacks.
* `src/trader-orchestrator/src/ibkr/market_data.py` — `MarketDataFetcher`:
  `get_historical_bars`, `get_option_chain`, `get_atm_options`,
  `get_option_greeks`.

The remote gateway (ib_insync's `IB` object) is modelled as an explicit
environment record: for each remote call the environment says whether that
call raises and what data it returns.  Python floats are modelled as `ℚ`;
Python's stable `sorted` is modelled by Mathlib's stable `List.insertionSort`.
Expiration dates (`'%Y%m%d'` strings, whose lexicographic order is
chronological order) are modelled as integer day numbers.
-/

namespace TraderOrch

/-! ### Connector state (`connector.py`) -/

/-- Observable state of an `IBConnector`: the `self.connected` flag, whether
the underlying transport (`self.ib`) reports `isConnected()`, the registered
status callbacks (identified by `Nat` tags, in registration order), and a log
of every observer invocation `(callback, boolean argument)` in the order the
invocations happened. -/
structure ConnectorState where
  connected : Bool
  transportConnected : Bool
  callbacks : List Nat
  log : List (Nat × Bool)
deriving DecidableEq, Repr

/-- `connector.py` line 164: `critical_errors = [1100, 1101, 1102, 1300, 2110]`. -/
def criticalErrors : List Nat := [1100, 1101, 1102, 1300, 2110]

/-- A fresh connector (`__init__`): `self.connected = False`, transport not
connected, given callbacks registered, nothing logged. -/
def initConnector (cbs : List Nat) : ConnectorState :=
  { connected := false, transportConnected := false, callbacks := cbs, log := [] }

/-- `_on_connected`: sets `self.connected = True` and invokes every registered
callback with `True`, in registration order. -/
def onConnected (s : ConnectorState) : ConnectorState :=
  { s with connected := true,
           log := s.log ++ s.callbacks.map (fun c => (c, true)) }

/-- `_on_disconnected`: sets `self.connected = False` and invokes every
registered callback with `False`, in registration order. -/
def onDisconnected (s : ConnectorState) : ConnectorState :=
  { s with connected := false,
           log := s.log ++ s.callbacks.map (fun c => (c, false)) }

/-- `_on_error`: if the error code is in `critical_errors`, sets
`self.connected = False` and invokes every callback with `False`; otherwise
only logs (no state change, no callback). -/
def onError (errorCode : Nat) (s : ConnectorState) : ConnectorState :=
  if errorCode ∈ criticalErrors then
    { s with connected := false,
             log := s.log ++ s.callbacks.map (fun c => (c, false)) }
  else s

/-- One execution of the retry loop body of `connect` (lines 63-84).
`fails i` says whether the `i`-th `self.ib.connect(...)` call raises.
`attempt` is the 1-based attempt counter, the `Nat` argument the number of
attempts still allowed (`max_attempts - attempt + 1`).  On a successful
connect call the transport becomes connected and the `connectedEvent` is
processed during `self.ib.sleep(0.1)` (handler `_on_connected`), then the
loop breaks and `connect` returns `self.connected`.  On the last failing
attempt `connect` returns `False`.  Result: (final state, returned boolean,
number of gateway connect calls issued). -/
def connectGo (fails : Nat → Bool) (s : ConnectorState) (attempt : Nat) :
    Nat → ConnectorState × Bool × Nat
  | 0 => (s, s.connected, 0)
  | remaining + 1 =>
    if fails attempt then
      if remaining = 0 then (s, false, 1)
      else
        let r := connectGo fails s (attempt + 1) remaining
        (r.1, r.2.1, r.2.2 + 1)
    else
      let s1 := onConnected { s with transportConnected := true }
      (s1, s1.connected, 1)

/-- `IBConnector.connect` with `max_attempts = maxAttempts`: run the retry
loop starting at attempt 1.  (With `max_attempts = 0` the Python `for` loop
body never runs and `connect` returns `self.connected`.) -/
def connect (fails : Nat → Bool) (s : ConnectorState) (maxAttempts : Nat) :
    ConnectorState × Bool × Nat :=
  connectGo fails s 1 maxAttempts

/-- `IBConnector.disconnect`: if the transport reports connected, disconnect
it and process the `disconnectedEvent` during `self.ib.sleep(0.1)` (handler
`_on_disconnected`); return `not self.connected`. -/
def disconnect (s : ConnectorState) : ConnectorState × Bool :=
  if s.transportConnected then
    let s1 := onDisconnected { s with transportConnected := false }
    (s1, !s1.connected)
  else
    (s, !s.connected)

/-! ### Market data (`market_data.py`) -/

/-- An option right: `'C'` or `'P'`. -/
inductive OptRight where
  | C
  | P
deriving DecidableEq, Repr

/-- An `ib_insync.Option` contract as constructed by
`Option(symbol, expiration, strike, right, exchange)`. -/
structure OptionContract where
  symbol : String
  expiration : Int
  strike : ℚ
  right : OptRight
  exchange : String
deriving DecidableEq, Repr

/-- The `call_put` argument of `get_atm_options`. -/
inductive Side where
  | CALL
  | PUT
  | BOTH
deriving DecidableEq, Repr

/-- Python truthiness of a float-or-None value: `None` and `0` are falsy. -/
def truthy : Option ℚ → Bool
  | none => false
  | some x => x != 0

/-- The price fields of a ticker returned by `reqMktData` on the underlying:
`last` and `close`, either of which may be unpopulated. -/
structure Ticker where
  last : Option ℚ
  close : Option ℚ
deriving DecidableEq, Repr

/-- `last_price = ticker.last if hasattr(ticker, 'last') and ticker.last else
ticker.close`, then the guard `if not last_price` / `if last_price`:
`tickerPrice t = some p` exactly when the computed `last_price` is truthy. -/
def tickerPrice (t : Ticker) : Option ℚ :=
  let lp := if truthy t.last then t.last else t.close
  if truthy lp then lp else none

/-- Subscription events issued against the gateway: opening a streaming
market-data subscription (`reqMktData`) and cancelling it (`cancelMktData`). -/
inductive MdEvent where
  | openSub
  | cancelSub
deriving DecidableEq, Repr

/-! #### `get_option_greeks` -/

/-- The ticker fields read by `get_option_greeks` (all may be unpopulated). -/
structure GreeksTicker where
  impliedVol : Option ℚ
  delta : Option ℚ
  gamma : Option ℚ
  vega : Option ℚ
  theta : Option ℚ
  last : Option ℚ
  close : Option ℚ
  bid : Option ℚ
  ask : Option ℚ
  bidSize : Option ℚ
  askSize : Option ℚ
  volume : Option ℚ
  openInterest : Option ℚ
deriving DecidableEq, Repr

/-- The greeks dictionary built by `get_option_greeks` (lines 309-322). -/
structure Greeks where
  impliedVol : Option ℚ
  delta : Option ℚ
  gamma : Option ℚ
  vega : Option ℚ
  theta : Option ℚ
  optPrice : Option ℚ
  bidPrice : Option ℚ
  askPrice : Option ℚ
  bidSize : Option ℚ
  askSize : Option ℚ
  volume : Option ℚ
  openInterest : Option ℚ
deriving DecidableEq, Repr

/-- Environment for one `get_option_greeks` call: whether the `reqMktData`
call itself raises (so no subscription is opened), whether an exception is
raised after the subscription was opened but before `cancelMktData` is
reached (e.g. `self.ib.sleep(1)` raising), and the ticker data otherwise. -/
structure GreeksEnv where
  reqRaises : Bool
  sleepRaises : Bool
  ticker : GreeksTicker
deriving DecidableEq, Repr

/-- `MarketDataFetcher.get_option_greeks` (lines 291-331).  Returns the trace
of subscription events together with the result: `none` models the empty
dictionary returned by the `except` handler, `some g` the populated greeks
dictionary.  There is no `finally`: the `except` handler does not cancel the
subscription, so on the path where an exception is raised after `reqMktData`
the trace contains an `openSub` without a matching `cancelSub`. -/
def get_option_greeks (env : GreeksEnv) : List MdEvent × Option Greeks :=
  if env.reqRaises then ([], none)
  else if env.sleepRaises then ([MdEvent.openSub], none)
  else
    ([MdEvent.openSub, MdEvent.cancelSub],
     some { impliedVol := env.ticker.impliedVol
            delta := env.ticker.delta
            gamma := env.ticker.gamma
            vega := env.ticker.vega
            theta := env.ticker.theta
            optPrice := if truthy env.ticker.last then env.ticker.last
                        else env.ticker.close
            bidPrice := env.ticker.bid
            askPrice := env.ticker.ask
            bidSize := env.ticker.bidSize
            askSize := env.ticker.askSize
            volume := env.ticker.volume
            openInterest := env.ticker.openInterest })

/-! #### `get_option_chain` -/

/-- Environment for one `get_option_chain` call: whether
`reqSecDefOptParams` raises, whether it returns no chains, the chain
metadata (`chain.expirations`, `chain.strikes`) of the first chain, whether
the underlying-price fetch (`reqMktData` / `sleep` / field read) raises, and
the underlying ticker otherwise. -/
structure ChainEnv where
  chainRaises : Bool
  chainsEmpty : Bool
  expirations : List Int
  strikes : List ℚ
  priceReqRaises : Bool
  ticker : Ticker
deriving DecidableEq, Repr

/-- Lines 154-157 of `get_option_chain`: `strikes = sorted(strikes);
middle = len(strikes) // 2; strikes = strikes[middle-10:middle+10]`
(a slice of 20 elements around the middle; only reached when
`len(strikes) > 20`). -/
def middleSlice (strikes : List ℚ) : List ℚ :=
  let ss := strikes.insertionSort (· ≤ ·)
  let middle := ss.length / 2
  (ss.drop (middle - 10)).take 20

/-- Lines 149-150 of `get_option_chain`: `strikes = sorted(strikes,
key=lambda x: abs(x - last_price)); strikes = strikes[:20]` (a stable sort
by distance to the price, keeping the first 20). -/
def nearestTwenty (p : ℚ) (strikes : List ℚ) : List ℚ :=
  (strikes.insertionSort (fun a b => |a - p| ≤ |b - p|)).take 20

/-- Lines 137-157 of `get_option_chain`: the per-expiration strike narrowing.
When more than 20 strikes exist, try to fetch the underlying price: if the
fetch raises, the `except` handler takes the 20 strikes around the middle of
the sorted list; if the fetch succeeds and the price is truthy, take the 20
strikes nearest the price; if the fetch succeeds but the price is falsy
(`if last_price:` fails), no narrowing happens at all. -/
def narrowStrikes (env : ChainEnv) (strikes : List ℚ) : List ℚ :=
  if strikes.length > 20 then
    if env.priceReqRaises then
      if strikes.length > 20 then middleSlice strikes else strikes
    else
      match tickerPrice env.ticker with
      | some p => nearestTwenty p strikes
      | none => strikes
  else strikes

/-- Lines 160-165 of `get_option_chain`: for each strike of
`sorted(strikes)`, one Call and one Put contract, Call first. -/
def mkOptions (symbol exchange : String) (expiration : Int)
    (strikes : List ℚ) : List OptionContract :=
  (strikes.insertionSort (· ≤ ·)).flatMap fun k =>
    [⟨symbol, expiration, k, OptRight.C, exchange⟩,
     ⟨symbol, expiration, k, OptRight.P, exchange⟩]

/-- `MarketDataFetcher.get_option_chain` (lines 94-173).  Returns the
insertion-ordered dictionary mapping each expiration to its contract list;
`[]` models the empty dictionary.  Any exception of `reqSecDefOptParams`
(and of everything else not covered by the inner `try`) is caught by the
outer handler and yields the empty dictionary; an exception of the inner
price fetch is caught by the inner handler and the operation continues with
the middle-of-the-range narrowing. -/
def get_option_chain (symbol exchange : String) (env : ChainEnv) :
    List (Int × List OptionContract) :=
  if env.chainRaises then []
  else if env.chainsEmpty then []
  else
    env.expirations.map fun e =>
      (e, mkOptions symbol exchange e (narrowStrikes env env.strikes))

/-! #### `get_atm_options` -/

/-- Lines 224-250 of `get_atm_options`: resolve the expiration when the
caller gave none.  Sort the listed expirations (date strings sort
chronologically; here: integer day numbers), keep those at least 30 days
out; if none qualifies take the last (furthest) expiration, otherwise sort
the qualifying ones by days-to-expiry and take the first.  `none` models the
`return []` on an empty expiration list. -/
def pickExpiration (expirations : List Int) (today : Int) : Option Int :=
  let exps := expirations.insertionSort (· ≤ ·)
  if exps = [] then none
  else
    let valid := exps.filter fun e => 30 ≤ e - today
    if valid = [] then exps.getLast?
    else (valid.insertionSort (fun a b => a - today ≤ b - today)).head?

/-- Accumulator loop behind Python's
`min(range(len(strikes)), key=lambda i: abs(strikes[i] - last_price))`:
`i` is the index of the head of the remaining list `l`, `best` the index of
the running minimum, `bv` its key `abs(strikes[best] - p)`; a later element
replaces the running minimum only when its key is strictly smaller (ties
keep the earlier index). -/
def argminAbsGo (p : ℚ) : List ℚ → Nat → Nat → ℚ → Nat
  | [], _, best, _ => best
  | x :: xs, i, best, bv =>
    if |x - p| < bv then argminAbsGo p xs (i + 1) i |x - p|
    else argminAbsGo p xs (i + 1) best bv

/-- Line 259 of `get_atm_options`: the first index of the strike list whose
strike has minimal absolute distance to the price. -/
def argminAbs (p : ℚ) : List ℚ → Nat
  | [] => 0
  | x :: xs => argminAbsGo p xs 1 0 |x - p|

/-- Environment for one `get_atm_options` call: whether the underlying
`reqMktData` call itself raises (no subscription opened), whether an
exception is raised after the subscription was opened but before
`cancelMktData` (e.g. `self.ib.sleep(0.5)` raising), the underlying ticker,
whether `reqSecDefOptParams` raises or returns no chains, the chain
metadata, and today's date (as a day number, for days-to-expiry). -/
structure AtmEnv where
  reqOpenRaises : Bool
  sleepRaises : Bool
  ticker : Ticker
  chainRaises : Bool
  chainsEmpty : Bool
  expirations : List Int
  strikes : List ℚ
  today : Int
deriving DecidableEq, Repr

/-- `MarketDataFetcher.get_atm_options` (lines 175-289).  Returns the trace
of subscription events on the underlying together with the contract list;
every caught exception yields `[]` (the outer `except` handler).  Note the
source order: the price is read and `cancelMktData` is called before the
`if not last_price` guard, so the no-price path has already cancelled; but
an exception between `reqMktData` and `cancelMktData` skips the cancel. -/
def get_atm_options (symbol exchange : String) (env : AtmEnv)
    (expirationArg : Option Int) (call_put : Side) (otm_offset : Int) :
    List MdEvent × List OptionContract :=
  if env.reqOpenRaises then ([], [])
  else if env.sleepRaises then ([MdEvent.openSub], [])
  else
    let trace := [MdEvent.openSub, MdEvent.cancelSub]
    match tickerPrice env.ticker with
    | none => (trace, [])
    | some last_price =>
      if env.chainRaises then (trace, [])
      else if env.chainsEmpty then (trace, [])
      else
        let resolved : Option Int :=
          match expirationArg with
          | some e => some e
          | none => pickExpiration env.expirations env.today
        match resolved with
        | none => (trace, [])
        | some expiration =>
          match env.strikes.insertionSort (· ≤ ·) with
          | [] => (trace, [])
          | _ :: _ =>
            let strikes := env.strikes.insertionSort (· ≤ ·)
            let atm_idx := argminAbs last_price strikes
            let call_idx :=
              if 0 < otm_offset then
                if call_put = Side.CALL ∨ call_put = Side.BOTH then
                  min (atm_idx + otm_offset.toNat) (strikes.length - 1)
                else atm_idx
              else atm_idx
            let put_idx :=
              if 0 < otm_offset then
                if call_put = Side.PUT ∨ call_put = Side.BOTH then
                  atm_idx - otm_offset.toNat
                else atm_idx
              else atm_idx
            let calls : List OptionContract :=
              if call_put = Side.CALL ∨ call_put = Side.BOTH then
                [⟨symbol, expiration, strikes.getD call_idx 0, OptRight.C, exchange⟩]
              else []
            let puts : List OptionContract :=
              if call_put = Side.PUT ∨ call_put = Side.BOTH then
                [⟨symbol, expiration, strikes.getD put_idx 0, OptRight.P, exchange⟩]
              else []
            (trace, calls ++ puts)

/-! #### `get_historical_bars` -/

/-- One raw bar returned by `reqHistoricalData`. -/
structure Bar where
  openPrice : ℚ
  highPrice : ℚ
  lowPrice : ℚ
  closePrice : ℚ
  volume : ℚ
deriving DecidableEq, Repr

/-- One row of the DataFrame returned by `get_historical_bars`: the bar plus
the derived columns computed on lines 75-86.  (The square-root-based
20-period volatility column is a floating-point quantity with no exact
rational counterpart and is not modelled; no claim refers to it.) -/
structure EnrichedBar where
  bar : Bar
  sma50 : Option ℚ
  green_candle : Bool
  daily_return : Option ℚ
deriving DecidableEq, Repr

/-- Environment for one `get_historical_bars` call: whether anything inside
the `try` block raises, and the bars returned otherwise. -/
structure BarsEnv where
  reqRaises : Bool
  bars : List Bar
deriving DecidableEq, Repr

/-- Trailing 50-bar simple moving average of the closes at row `i`
(`df['close'].rolling(window=50).mean()`): absent before 50 rows exist. -/
def sma50At (closes : List ℚ) (i : Nat) : Option ℚ :=
  if 50 ≤ i + 1 then some ((((closes.take (i + 1)).drop (i + 1 - 50)).sum) / 50)
  else none

/-- `df['close'].pct_change()` at row `i`: absent at row 0. -/
def dailyReturnAt (closes : List ℚ) (i : Nat) : Option ℚ :=
  match i with
  | 0 => none
  | j + 1 => some (closes.getD (j + 1) 0 / closes.getD j 0 - 1)

/-- `MarketDataFetcher.get_historical_bars` (lines 34-92): on any exception
inside the `try` block, or on an empty bar list, the empty DataFrame;
otherwise the bars with the derived columns. -/
def get_historical_bars (env : BarsEnv) : List EnrichedBar :=
  if env.reqRaises then []
  else
    match env.bars with
    | [] => []
    | bs =>
      let closes := bs.map Bar.closePrice
      (List.range bs.length).map fun i =>
        { bar := bs.getD i ⟨0, 0, 0, 0, 0⟩
          sma50 := sma50At closes i
          green_candle := decide ((bs.getD i ⟨0, 0, 0, 0, 0⟩).closePrice
                                   > (bs.getD i ⟨0, 0, 0, 0, 0⟩).openPrice)
          daily_return := dailyReturnAt closes i }

/-! ### Shared concrete instances used by witnesses -/

/-- A greeks ticker with no field populated. -/
def greeksTickerNone : GreeksTicker :=
  { impliedVol := none, delta := none, gamma := none, vega := none
    theta := none, last := none, close := none, bid := none, ask := none
    bidSize := none, askSize := none, volume := none, openInterest := none }

/-- A `get_option_greeks` call whose `reqMktData` succeeds (the subscription
opens) and where the subsequent `self.ib.sleep(1)` raises. -/
def c1LeakEnv : GreeksEnv :=
  { reqRaises := false, sleepRaises := true, ticker := greeksTickerNone }

/-- The environment of spec property 6: strikes `[100,110,120,130,140]`,
current underlying price `120`, everything remote succeeding. -/
def atmEnv120 : AtmEnv :=
  { reqOpenRaises := false, sleepRaises := false
    ticker := { last := some 120, close := none }
    chainRaises := false, chainsEmpty := false
    expirations := [700100], strikes := [100, 110, 120, 130, 140]
    today := 700000 }

/-! ### Theorems for the claims -/

/-- C1: the claim states that every operation opening a live market-data
subscription for one snapshot cancels it on every execution path, including
the path where an exception is raised after the subscription was opened.
The code has no `finally`: in `get_option_greeks`, when an exception is
raised after `reqMktData` opened the subscription (e.g. during
`self.ib.sleep(1)`), the `except` handler returns the empty dictionary
without calling `cancelMktData`, so the trace contains the open with no
cancel — the subscription leaks.  The same happens in `get_atm_options`
(and in the inner price fetch of `get_option_chain`). -/
theorem C1_greeks_subscription_leak :
    (get_option_greeks c1LeakEnv).1 = [MdEvent.openSub] ∧
    (get_option_greeks c1LeakEnv).2 = none ∧
    (get_atm_options "SPY" "SMART" { atmEnv120 with sleepRaises := true }
        (some 700100) Side.BOTH 0).1 = [MdEvent.openSub] ∧
    (get_atm_options "SPY" "SMART" { atmEnv120 with sleepRaises := true }
        (some 700100) Side.BOTH 0).2 = [] := by
  decide

/-- Retry loop of `connect` when every gateway connect call raises: with at
least one attempt allowed, the loop issues exactly `remaining` connect
calls, returns `False`, and leaves the state untouched. -/
theorem connectGo_all_fail (fails : Nat → Bool) (hf : ∀ i, fails i = true)
    (s : ConnectorState) :
    ∀ remaining attempt, 1 ≤ remaining →
      connectGo fails s attempt remaining = (s, false, remaining) := by
  intro remaining
  induction remaining with
  | zero => omega
  | succ r ih =>
    intro attempt _
    cases r with
    | zero => simp [connectGo, hf attempt]
    | succ r' =>
      rw [connectGo, if_pos (hf attempt), if_neg (by omega : ¬(r' + 1 = 0)),
        ih (attempt + 1) (by omega)]

/-- C2: for every configured `max_attempts = N`, if every gateway connect
call raises, `connect()` issues exactly `N` connect calls, returns `False`
(the model is a total function, so nothing is raised), and leaves the state
of a fresh connector unchanged — in particular Disconnected with no
observer notified. -/
theorem C2_connect_all_attempts_fail (N : Nat) (cbs : List Nat)
    (fails : Nat → Bool) (hf : ∀ i, fails i = true) :
    connect fails (initConnector cbs) N = (initConnector cbs, false, N) := by
  cases N with
  | zero => rfl
  | succ n => exact connectGo_all_fail fails hf _ (n + 1) 1 (by omega)

/-- Witness for C2 at `max_attempts = 3` with one registered observer. -/
theorem C2_witness :
    connect (fun _ => true) (initConnector [5]) 3 = (initConnector [5], false, 3) :=
  C2_connect_all_attempts_fail 3 [5] (fun _ => true) (fun _ => rfl)

/-- C3 counterexample: the claim states observers are invoked exactly when
the state transitions (an event that does not change the state invokes no
observer).  But `_on_error` with a critical code received while already
Disconnected leaves `connected` at `False` — no transition — and still
invokes the registered observer with `False`. -/
theorem C3_counterexample :
    (onError 1100 { connected := false, transportConnected := false,
                    callbacks := [7], log := [] }).connected = false ∧
    (onError 1100 { connected := false, transportConnected := false,
                    callbacks := [7], log := [] }).log = [(7, false)] := by
  decide

/-- C3 amended: observers are invoked synchronously, in registration order,
with the new boolean state, on every connected event, every disconnected
event, and every critical-error event — whether or not the event changes
the state; a non-critical error invokes no observer and changes nothing. -/
theorem C3_amended_notify_every_event (s : ConnectorState) (code : Nat) :
    ((onConnected s).connected = true ∧
      (onConnected s).log = s.log ++ s.callbacks.map (fun c => (c, true))) ∧
    ((onDisconnected s).connected = false ∧
      (onDisconnected s).log = s.log ++ s.callbacks.map (fun c => (c, false))) ∧
    (code ∈ criticalErrors →
      (onError code s).connected = false ∧
      (onError code s).log = s.log ++ s.callbacks.map (fun c => (c, false))) ∧
    (code ∉ criticalErrors → onError code s = s) := by
  refine ⟨⟨rfl, rfl⟩, ⟨rfl, rfl⟩, fun h => ?_, fun h => ?_⟩
  · rw [onError, if_pos h]
    exact ⟨rfl, rfl⟩
  · rw [onError, if_neg h]

/-- Witness for C3's amended theorem: two observers, critical code 1100. -/
theorem C3_amended_witness :
    (onError 1100 { connected := true, transportConnected := true,
                    callbacks := [1, 2], log := [] }).log = [(1, false), (2, false)] := by
  have h := C3_amended_notify_every_event
    { connected := true, transportConnected := true, callbacks := [1, 2], log := [] } 1100
  exact (h.2.2.1 (by decide)).2.trans (by decide)

/-- C4: an error received while Connected: a code in the fixed critical set
transitions the state to Disconnected and notifies every registered observer
with `False` in registration order; a code outside the set leaves the state
Connected (nothing changes at all). -/
theorem C4_on_error_while_connected (s : ConnectorState) (code : Nat)
    (hc : s.connected = true) :
    (code ∈ criticalErrors →
      (onError code s).connected = false ∧
      (onError code s).log = s.log ++ s.callbacks.map (fun c => (c, false))) ∧
    (code ∉ criticalErrors →
      (onError code s).connected = true ∧ onError code s = s) := by
  refine ⟨fun h => ?_, fun h => ?_⟩
  · rw [onError, if_pos h]
    exact ⟨rfl, rfl⟩
  · rw [onError, if_neg h]
    exact ⟨hc, rfl⟩

/-- Witness for C4: a connected state with one observer, critical code 1100
versus non-critical code 2104. -/
theorem C4_witness :
    (onError 1100 { connected := true, transportConnected := true,
                    callbacks := [3], log := [] }).connected = false ∧
    (onError 2104 { connected := true, transportConnected := true,
                    callbacks := [3], log := [] }).connected = true := by
  have h1 := C4_on_error_while_connected
    { connected := true, transportConnected := true, callbacks := [3], log := [] } 1100 rfl
  have h2 := C4_on_error_while_connected
    { connected := true, transportConnected := true, callbacks := [3], log := [] } 2104 rfl
  exact ⟨(h1.1 (by decide)).1, (h2.2 (by decide)).1⟩

/-- C5: `disconnect()` on a never-connected manager returns `True` with no
observer invoked and no state change; and after any `disconnect()` (from a
state satisfying the reachable-state invariant that a disconnected transport
implies `connected = False`), a second `disconnect()` changes nothing —
state and notification log included — and returns `True`. -/
theorem C5_disconnect_idempotent (cbs : List Nat) (s : ConnectorState)
    (hinv : s.transportConnected = false → s.connected = false) :
    disconnect (initConnector cbs) = (initConnector cbs, true) ∧
    (disconnect (disconnect s).1).1 = (disconnect s).1 ∧
    (disconnect (disconnect s).1).2 = true := by
  refine ⟨rfl, ?_, ?_⟩ <;>
  · by_cases h : s.transportConnected = true
    · simp [disconnect, onDisconnected, h]
    · have h' : s.transportConnected = false := by
        cases hx : s.transportConnected
        · rfl
        · exact absurd hx h
      simp [disconnect, h', hinv h']

/-- Witness for C5: a connected manager with one observer already notified
once; one disconnect, then a second one. -/
theorem C5_witness :
    (disconnect (disconnect { connected := true, transportConnected := true,
                              callbacks := [4], log := [(4, true)] }).1).1
      = (disconnect { connected := true, transportConnected := true,
                      callbacks := [4], log := [(4, true)] }).1 ∧
    (disconnect (disconnect { connected := true, transportConnected := true,
                              callbacks := [4], log := [(4, true)] }).1).2 = true := by
  have h := C5_disconnect_idempotent []
    { connected := true, transportConnected := true, callbacks := [4], log := [(4, true)] }
    (by decide)
  exact ⟨h.2.1, h.2.2⟩

/-- C10: a negative `otm_offset` (violating the documented `otm_offset ≥ 0`)
falls into the `else` branch of `if otm_offset > 0`, so both indices equal
the ATM index and the call behaves exactly as with `otm_offset = 0`. -/
theorem C10_negative_offset (symbol exchange : String) (env : AtmEnv)
    (expirationArg : Option Int) (call_put : Side) (off : Int)
    (hoff : off < 0) :
    get_atm_options symbol exchange env expirationArg call_put off =
      get_atm_options symbol exchange env expirationArg call_put 0 := by
  have h1 : ¬(0 < off) := by omega
  have h2 : ¬((0 : Int) < 0) := by omega
  simp only [get_atm_options, h1, h2, if_false, ite_false]

unseal Rat.add Rat.sub Rat.mul Rat.inv in
/-- Witness for C10: `otm_offset = -1` on the spec's five-strike chain at
price 120 returns the same ATM Call and Put as `otm_offset = 0`. -/
theorem C10_witness :
    (get_atm_options "SPY" "SMART" atmEnv120 (some 700100) Side.BOTH (-1)).2 =
      [⟨"SPY", 700100, 120, OptRight.C, "SMART"⟩,
       ⟨"SPY", 700100, 120, OptRight.P, "SMART"⟩] := by
  rw [C10_negative_offset "SPY" "SMART" atmEnv120 (some 700100) Side.BOTH (-1) (by decide)]
  decide

/-- Invariant-carrying specification of the accumulator loop behind
`min(range(len(strikes)), key=...)`: if `best` is the first index of
`full` minimizing the distance among the first `i` positions and `l` is the
rest of `full` from position `i` on, then the loop returns the first index
of all of `full` minimizing the distance. -/
theorem argminAbsGo_spec (p : ℚ) (full : List ℚ) (l : List ℚ) :
    ∀ (i best : Nat) (bv : ℚ),
      i + l.length = full.length →
      (∀ k, k < l.length → l.getD k 0 = full.getD (i + k) 0) →
      best < full.length →
      bv = |full.getD best 0 - p| →
      (∀ j, j < i → bv ≤ |full.getD j 0 - p|) →
      (∀ j, j < best → bv < |full.getD j 0 - p|) →
      argminAbsGo p l i best bv < full.length ∧
      (∀ j, j < full.length →
        |full.getD (argminAbsGo p l i best bv) 0 - p| ≤ |full.getD j 0 - p|) ∧
      (∀ j, j < argminAbsGo p l i best bv →
        |full.getD (argminAbsGo p l i best bv) 0 - p| < |full.getD j 0 - p|) := by
  induction l with
  | nil =>
    intro i best bv hlen hlink hbest hbv hmin hfirst
    simp only [argminAbsGo]
    refine ⟨hbest, fun j hj => ?_, fun j hj => ?_⟩
    · rw [← hbv]
      exact hmin j (by simp at hlen; omega)
    · rw [← hbv]
      exact hfirst j hj
  | cons x xs ih =>
    intro i best bv hlen hlink hbest hbv hmin hfirst
    have hx : x = full.getD i 0 := by
      have := hlink 0 (by simp)
      simpa using this
    have hi : i < full.length := by simp at hlen; omega
    have hlen' : (i + 1) + xs.length = full.length := by simp at hlen; omega
    have hlink' : ∀ k, k < xs.length → xs.getD k 0 = full.getD ((i + 1) + k) 0 := by
      intro k hk
      have := hlink (k + 1) (by simp; omega)
      simpa [Nat.add_assoc, Nat.add_comm 1 k] using this
    rw [argminAbsGo]
    by_cases hcmp : |x - p| < bv
    · rw [if_pos hcmp]
      refine ih (i + 1) i |x - p| hlen' hlink' hi (by rw [hx]) ?_ ?_
      · intro j hj
        rcases Nat.lt_or_ge j i with hji | hji
        · exact le_of_lt (lt_of_lt_of_le hcmp (hmin j hji))
        · have : j = i := by omega
          rw [this, ← hx]
      · intro j hj
        exact lt_of_lt_of_le hcmp (hmin j hj)
    · rw [if_neg hcmp]
      refine ih (i + 1) best bv hlen' hlink' hbest hbv ?_ hfirst
      intro j hj
      rcases Nat.lt_or_ge j i with hji | hji
      · exact hmin j hji
      · have : j = i := by omega
        rw [this, ← hx]
        exact le_of_not_lt hcmp

/-- Line 259 of `get_atm_options`: `argminAbs` returns the first index of
the strike list whose strike has minimal absolute distance to the price
(so ties go to the earlier, i.e. lower, strike of a sorted list). -/
theorem argminAbs_spec (p : ℚ) (l : List ℚ) (hl : l ≠ []) :
    argminAbs p l < l.length ∧
    (∀ j, j < l.length →
      |l.getD (argminAbs p l) 0 - p| ≤ |l.getD j 0 - p|) ∧
    (∀ j, j < argminAbs p l →
      |l.getD (argminAbs p l) 0 - p| < |l.getD j 0 - p|) := by
  cases l with
  | nil => exact absurd rfl hl
  | cons x xs =>
    rw [show argminAbs p (x :: xs) = argminAbsGo p xs 1 0 |x - p| from rfl]
    refine argminAbsGo_spec p (x :: xs) xs 1 0 |x - p| (by simp [Nat.add_comm])
      (fun k hk => by simp [Nat.add_comm 1 k]) (by simp) (by simp) ?_ (by omega)
    intro j hj
    have : j = 0 := by omega
    simp [this]

unseal Rat.add Rat.sub Rat.mul Rat.inv in
/-- C7: on the successful path with a sorted non-empty strike list and an
available price, `get_atm_options` picks the index of the strike with
minimal absolute distance to the price (ties to the first, lower, strike);
with `otm_offset > 0` the Call is taken `otm_offset` positions up, clamped
to the last index, and the Put `otm_offset` positions down, clamped to 0
(the clamps are `min`/truncated subtraction below).  In particular, for
strikes `[100,110,120,130,140]` at price 120: no offset gives a Call and a
Put at 120; `otm_offset = 1` for calls only gives a Call at 130;
`otm_offset = 1` for puts only gives a Put at 110. -/
theorem C7_atm_strike_selection (symbol exchange : String) (env : AtmEnv)
    (p : ℚ) (e : Int) (off : Int)
    (h1 : env.reqOpenRaises = false) (h2 : env.sleepRaises = false)
    (hp : tickerPrice env.ticker = some p)
    (h3 : env.chainRaises = false) (h4 : env.chainsEmpty = false)
    (hs : env.strikes ≠ []) (hsorted : env.strikes.Sorted (· ≤ ·))
    (hoff : 0 < off) :
    (argminAbs p env.strikes < env.strikes.length ∧
      (∀ j, j < env.strikes.length →
        |env.strikes.getD (argminAbs p env.strikes) 0 - p| ≤
          |env.strikes.getD j 0 - p|) ∧
      (∀ j, j < argminAbs p env.strikes →
        |env.strikes.getD (argminAbs p env.strikes) 0 - p| <
          |env.strikes.getD j 0 - p|)) ∧
    (get_atm_options symbol exchange env (some e) Side.BOTH off).2 =
      [⟨symbol, e, env.strikes.getD
          (min (argminAbs p env.strikes + off.toNat) (env.strikes.length - 1)) 0,
        OptRight.C, exchange⟩,
       ⟨symbol, e, env.strikes.getD (argminAbs p env.strikes - off.toNat) 0,
        OptRight.P, exchange⟩] ∧
    (get_atm_options symbol exchange env (some e) Side.CALL off).2 =
      [⟨symbol, e, env.strikes.getD
          (min (argminAbs p env.strikes + off.toNat) (env.strikes.length - 1)) 0,
        OptRight.C, exchange⟩] ∧
    (get_atm_options symbol exchange env (some e) Side.PUT off).2 =
      [⟨symbol, e, env.strikes.getD (argminAbs p env.strikes - off.toNat) 0,
        OptRight.P, exchange⟩] ∧
    (get_atm_options "SPY" "SMART" atmEnv120 (some 700100) Side.BOTH 0).2 =
      [⟨"SPY", 700100, 120, OptRight.C, "SMART"⟩,
       ⟨"SPY", 700100, 120, OptRight.P, "SMART"⟩] ∧
    (get_atm_options "SPY" "SMART" atmEnv120 (some 700100) Side.CALL 1).2 =
      [⟨"SPY", 700100, 130, OptRight.C, "SMART"⟩] ∧
    (get_atm_options "SPY" "SMART" atmEnv120 (some 700100) Side.PUT 1).2 =
      [⟨"SPY", 700100, 110, OptRight.P, "SMART"⟩] := by
  have hsort := List.Sorted.insertionSort_eq hsorted
  refine ⟨argminAbs_spec p env.strikes hs, ?_, ?_, ?_,
    by decide, by decide, by decide⟩ <;>
  · rcases henv : env.strikes with _ | ⟨a, as⟩
    · exact absurd henv hs
    · rw [henv] at hsort
      simp [get_atm_options, henv, hsort, h1, h2, h3, h4, hp, hoff]

unseal Rat.add Rat.sub Rat.mul Rat.inv in
/-- Witness for C7: the five-strike environment at price 120 with
`otm_offset = 1` on both sides gives a Call at 130 and a Put at 110. -/
theorem C7_witness :
    (get_atm_options "SPY" "SMART" atmEnv120 (some 700100) Side.BOTH 1).2 =
      [⟨"SPY", 700100, 130, OptRight.C, "SMART"⟩,
       ⟨"SPY", 700100, 110, OptRight.P, "SMART"⟩] := by
  have h := C7_atm_strike_selection "SPY" "SMART" atmEnv120 120 700100 1
    rfl rfl (by decide) rfl rfl (by decide) (by decide) (by decide)
  exact h.2.1.trans (by decide)

/-- In a `≤`-sorted list every element is at most the last element. -/
theorem sorted_le_last {l : List Int} (hs : l.Sorted (· ≤ ·)) {x : Int}
    (hx : x ∈ l) (h : l ≠ []) : x ≤ l.getLast h := by
  induction l with
  | nil => exact absurd rfl h
  | cons a t ih =>
    cases t with
    | nil =>
      simp only [List.mem_singleton] at hx
      simp [hx, List.getLast]
    | cons b t' =>
      rw [List.getLast_cons (by simp : (b :: t') ≠ [])]
      rcases List.mem_cons.mp hx with rfl | hx'
      · exact (List.sorted_cons.mp hs).1 _ (List.getLast_mem _)
      · exact ih (List.sorted_cons.mp hs).2 hx' (by simp)

/-- C8: when `get_atm_options` is called without an expiration argument and
the chain lists at least one expiration, the selected expiration `e` is a
listed expiration; if some listed expiration is at least 30 days out, `e`
is one of those with the smallest days-to-expiry; otherwise `e` is the
furthest-dated listed expiration.  Every contract the call returns carries
the selected expiration. -/
theorem C8_expiration_selection (symbol exchange : String) (env : AtmEnv)
    (side : Side) (off : Int) (hne : env.expirations ≠ []) :
    ∃ e, pickExpiration env.expirations env.today = some e ∧
      e ∈ env.expirations ∧
      ((∃ x ∈ env.expirations, 30 ≤ x - env.today) →
        30 ≤ e - env.today ∧
        ∀ x ∈ env.expirations, 30 ≤ x - env.today →
          e - env.today ≤ x - env.today) ∧
      ((∀ x ∈ env.expirations, x - env.today < 30) →
        ∀ x ∈ env.expirations, x ≤ e) ∧
      (∀ c ∈ (get_atm_options symbol exchange env none side off).2,
        c.expiration = e) := by
  have hperm := List.perm_insertionSort (· ≤ ·) env.expirations
  have hsorted : (env.expirations.insertionSort (· ≤ ·)).Sorted (· ≤ ·) :=
    List.sorted_insertionSort _ _
  obtain ⟨a, as, hx⟩ :
      ∃ a as, env.expirations.insertionSort (· ≤ ·) = a :: as := by
    cases h : env.expirations.insertionSort (· ≤ ·) with
    | nil =>
      exact absurd (List.eq_nil_of_length_eq_zero
        (by rw [← hperm.length_eq, h]; rfl)) hne
    | cons a as => exact ⟨a, as, rfl⟩
  have hmem_of : ∀ y, y ∈ env.expirations → y ∈ a :: as := by
    intro y hy
    have := hperm.mem_iff.mpr hy
    rw [hx] at this
    exact this
  have hmem_to : ∀ y, y ∈ a :: as → y ∈ env.expirations := by
    intro y hy
    refine hperm.mem_iff.mp ?_
    rw [hx]
    exact hy
  have hpick : ∃ e, pickExpiration env.expirations env.today = some e ∧
      e ∈ env.expirations ∧
      ((∃ x ∈ env.expirations, 30 ≤ x - env.today) →
        30 ≤ e - env.today ∧
        ∀ x ∈ env.expirations, 30 ≤ x - env.today →
          e - env.today ≤ x - env.today) ∧
      ((∀ x ∈ env.expirations, x - env.today < 30) →
        ∀ x ∈ env.expirations, x ≤ e) := by
    have hred : pickExpiration env.expirations env.today =
        (if (a :: as).filter (fun e => 30 ≤ e - env.today) = []
         then (a :: as).getLast?
         else (((a :: as).filter (fun e => 30 ≤ e - env.today)).insertionSort
            (fun x y => x - env.today ≤ y - env.today)).head?) := by
      rw [pickExpiration]
      simp only [hx]
      rw [if_neg (by simp)]
    cases hv : (a :: as).filter (fun e => 30 ≤ e - env.today) with
    | nil =>
      rw [hred, hv, if_pos rfl]
      refine ⟨(a :: as).getLast (by simp),
        List.getLast?_eq_getLast _ (by simp), ?_, ?_, ?_⟩
      · exact hmem_to _ (List.getLast_mem (by simp))
      · rintro ⟨y, hy, hq⟩
        have hyx : y ∈ (a :: as).filter (fun e => 30 ≤ e - env.today) :=
          List.mem_filter.mpr ⟨hmem_of y hy, by simpa using hq⟩
        rw [hv] at hyx
        exact absurd hyx (by simp)
      · intro _ y hy
        have hsx : (a :: as).Sorted (· ≤ ·) := by rw [← hx]; exact hsorted
        exact sorted_le_last hsx (hmem_of y hy) (by simp)
    | cons v vs =>
      rw [hred, hv, if_neg (by simp)]
      haveI htot : IsTotal Int (fun x y => x - env.today ≤ y - env.today) :=
        ⟨fun x y => by
          rcases le_total (x - env.today) (y - env.today) with h | h
          · exact Or.inl h
          · exact Or.inr h⟩
      haveI htrans : IsTrans Int (fun x y => x - env.today ≤ y - env.today) :=
        ⟨fun x y z h1 h2 => by
          have h1' : x - env.today ≤ y - env.today := h1
          have h2' : y - env.today ≤ z - env.today := h2
          show x - env.today ≤ z - env.today
          omega⟩
      have hperm2 := List.perm_insertionSort
        (fun x y => x - env.today ≤ y - env.today) (v :: vs)
      have hsorted2 := List.sorted_insertionSort
        (fun x y => x - env.today ≤ y - env.today) (v :: vs)
      obtain ⟨b, bs, hb⟩ : ∃ b bs,
          (v :: vs).insertionSort (fun x y => x - env.today ≤ y - env.today)
            = b :: bs := by
        cases h : (v :: vs).insertionSort
            (fun x y => x - env.today ≤ y - env.today) with
        | nil =>
          have := hperm2.length_eq
          rw [h] at this
          simp at this
        | cons b bs => exact ⟨b, bs, rfl⟩
      have hbf : b ∈ (a :: as).filter (fun e => 30 ≤ e - env.today) := by
        rw [hv]
        refine hperm2.mem_iff.mp ?_
        rw [hb]
        exact List.mem_cons_self b bs
      have hbmem : b ∈ env.expirations :=
        hmem_to _ (List.mem_filter.mp hbf).1
      have hbq : 30 ≤ b - env.today := by
        have := (List.mem_filter.mp hbf).2
        simpa using this
      refine ⟨b, by rw [hb]; rfl, hbmem, ?_, ?_⟩
      · intro _
        refine ⟨hbq, fun y hy hyq => ?_⟩
        have hyf : y ∈ (a :: as).filter (fun e => 30 ≤ e - env.today) :=
          List.mem_filter.mpr ⟨hmem_of y hy, by simpa using hyq⟩
        rw [hv] at hyf
        have hyb : y ∈ b :: bs := by
          rw [← hb]
          exact hperm2.mem_iff.mpr hyf
        rcases List.mem_cons.mp hyb with rfl | hybs
        · exact le_refl _
        · have hsb : (b :: bs).Sorted (fun x y => x - env.today ≤ y - env.today) := by
            rw [← hb]
            exact hsorted2
          exact (List.sorted_cons.mp hsb).1 y hybs
      · intro hall
        exact absurd hbq (by have := hall b hbmem; omega)
  obtain ⟨e, he, hmem, himp1, himp2⟩ := hpick
  refine ⟨e, he, hmem, himp1, himp2, ?_⟩
  intro c hc
  cases hb1 : env.reqOpenRaises with
  | true => simp [get_atm_options, hb1] at hc
  | false =>
  cases hb2 : env.sleepRaises with
  | true => simp [get_atm_options, hb1, hb2] at hc
  | false =>
  cases htp : tickerPrice env.ticker with
  | none => simp [get_atm_options, hb1, hb2, htp] at hc
  | some pr =>
  cases hb3 : env.chainRaises with
  | true => simp [get_atm_options, hb1, hb2, htp, hb3] at hc
  | false =>
  cases hb4 : env.chainsEmpty with
  | true => simp [get_atm_options, hb1, hb2, htp, hb3, hb4] at hc
  | false =>
  cases hsk : env.strikes.insertionSort (· ≤ ·) with
  | nil => simp [get_atm_options, hb1, hb2, htp, hb3, hb4, he, hsk] at hc
  | cons a' as' =>
    simp only [get_atm_options, hb1, hb2, htp, hb3, hb4, he, hsk,
      Bool.false_eq_true, if_false] at hc
    rcases List.mem_append.mp hc with hcc | hcp
    · split at hcc
      · simp only [List.mem_singleton] at hcc
        rw [hcc]
      · exact absurd hcc (by simp)
    · split at hcp
      · simp only [List.mem_singleton] at hcp
        rw [hcp]
      · exact absurd hcp (by simp)

/-- Concrete environment used by the C8 witness: expirations 25, 40 and 90
days after today (day 0). -/
def c8Env : AtmEnv :=
  { reqOpenRaises := false, sleepRaises := false
    ticker := { last := some 100, close := none }
    chainRaises := false, chainsEmpty := false
    expirations := [90, 25, 40], strikes := [100]
    today := 0 }

/-- Witness for C8: among expirations 25, 40 and 90 days out, the one 40
days out is selected (smallest days-to-expiry at least 30 days). -/
theorem C8_witness :
    pickExpiration c8Env.expirations c8Env.today = some 40 := by
  obtain ⟨e, he, hmem, himp1, -, -⟩ :=
    C8_expiration_selection "SPY" "SMART" c8Env Side.BOTH 0 (by decide)
  have h40 := himp1 ⟨40, by decide, by decide⟩
  have h1 := h40.2 40 (by decide) (by decide)
  have h2 := h40.1
  have ht : c8Env.today = 0 := rfl
  rw [ht] at h1 h2
  have hm : e ∈ ([90, 25, 40] : List Int) := hmem
  have hmem' : e = 90 ∨ e = 25 ∨ e = 40 := by simpa using hm
  rcases hmem' with rfl | rfl | rfl
  · omega
  · omega
  · exact he

/-- `nearestTwenty` on more than 20 strikes: 20 strikes are kept, the kept
and dropped strikes together are a permutation of the input, and every kept
strike is at least as close to the price as every dropped strike. -/
theorem nearestTwenty_spec (p : ℚ) (l : List ℚ) (hl : 20 < l.length) :
    (nearestTwenty p l).length = 20 ∧
    ∃ rest, ((nearestTwenty p l) ++ rest).Perm l ∧
      ∀ x ∈ nearestTwenty p l, ∀ y ∈ rest, |x - p| ≤ |y - p| := by
  haveI htot : IsTotal ℚ (fun a b => |a - p| ≤ |b - p|) :=
    ⟨fun a b => by
      rcases le_total |a - p| |b - p| with h | h
      · exact Or.inl h
      · exact Or.inr h⟩
  haveI htrans : IsTrans ℚ (fun a b => |a - p| ≤ |b - p|) :=
    ⟨fun a b c h1 h2 => by
      have h1' : |a - p| ≤ |b - p| := h1
      have h2' : |b - p| ≤ |c - p| := h2
      show |a - p| ≤ |c - p|
      exact le_trans h1' h2'⟩
  have hlen2 : (l.insertionSort (fun a b => |a - p| ≤ |b - p|)).length = l.length :=
    List.length_insertionSort _ _
  refine ⟨?_, ?_⟩
  · rw [nearestTwenty]
    rw [List.length_take]
    omega
  · refine ⟨(l.insertionSort (fun a b => |a - p| ≤ |b - p|)).drop 20, ?_, ?_⟩
    · rw [nearestTwenty, List.take_append_drop]
      exact List.perm_insertionSort _ l
    · have hpw : (l.insertionSort (fun a b => |a - p| ≤ |b - p|)).Pairwise
          (fun a b => |a - p| ≤ |b - p|) :=
        List.sorted_insertionSort _ l
      have hsplit := List.pairwise_append.mp
        (by rw [List.take_append_drop]; exact hpw :
          (((l.insertionSort (fun a b => |a - p| ≤ |b - p|)).take 20) ++
            ((l.insertionSort (fun a b => |a - p| ≤ |b - p|)).drop 20)).Pairwise
              (fun a b => |a - p| ≤ |b - p|))
      exact fun x hx y hy => hsplit.2.2 x hx y hy

/-- `middleSlice` on more than 20 strikes: it is a 20-element contiguous
slice of the ascending-sorted strike list starting 10 places before the
middle index. -/
theorem middleSlice_spec (l : List ℚ) (hl : 20 < l.length) :
    (middleSlice l).length = 20 ∧
    ∃ s t, s ++ middleSlice l ++ t = l.insertionSort (· ≤ ·) ∧
      s.length = l.length / 2 - 10 := by
  have hlen2 : (l.insertionSort (· ≤ ·)).length = l.length :=
    List.length_insertionSort _ _
  refine ⟨?_, ?_⟩
  · rw [middleSlice]
    simp only [List.length_take, List.length_drop]
    omega
  · refine ⟨(l.insertionSort (· ≤ ·)).take
        ((l.insertionSort (· ≤ ·)).length / 2 - 10),
      ((l.insertionSort (· ≤ ·)).drop
        ((l.insertionSort (· ≤ ·)).length / 2 - 10)).drop 20, ?_, ?_⟩
    · rw [middleSlice, List.append_assoc, List.take_append_drop,
        List.take_append_drop]
    · rw [List.length_take]
      omega

/-- In the contract list built for one expiration, the Call strikes are
exactly the sorted retained strikes, and so are the Put strikes. -/
theorem mkOptions_strikes (sym exch : String) (e : Int) (ks : List ℚ) :
    ((mkOptions sym exch e ks).filter fun c => c.right = OptRight.C).map
        OptionContract.strike = ks.insertionSort (· ≤ ·) ∧
    ((mkOptions sym exch e ks).filter fun c => c.right = OptRight.P).map
        OptionContract.strike = ks.insertionSort (· ≤ ·) := by
  rw [mkOptions]
  generalize ks.insertionSort (· ≤ ·) = l
  induction l with
  | nil => simp
  | cons k l' ih =>
    simp only [List.flatMap_cons, List.filter_append, List.map_append, ih]
    refine ⟨?_, ?_⟩ <;> simp

/-- A chain environment with 21 strikes whose price fetch succeeds but whose
ticker has neither a `last` nor a `close` price (the `if last_price:` guard
fails without an exception). -/
def c6FalsyEnv : ChainEnv :=
  { chainRaises := false, chainsEmpty := false
    expirations := [100]
    strikes := [100, 101, 102, 103, 104, 105, 106, 107, 108, 109, 110,
                111, 112, 113, 114, 115, 116, 117, 118, 119, 120]
    priceReqRaises := false
    ticker := { last := none, close := none } }

/-- C6 counterexample: the claim states that whenever a live price cannot be
obtained, the 20 strikes nearest the middle are retained.  But the
middle-fallback only runs in the `except` handler: when the price fetch
succeeds and merely returns no usable price (`ticker.last` and
`ticker.close` both unset), the `if last_price:` guard skips the narrowing
and all 21 strikes are retained — the single expiration gets 42 contracts,
not 40. -/
theorem C6_counterexample :
    tickerPrice c6FalsyEnv.ticker = none ∧
    c6FalsyEnv.priceReqRaises = false ∧
    20 < c6FalsyEnv.strikes.length ∧
    ((get_option_chain "SPY" "SMART" c6FalsyEnv).map fun pr => (pr.1, pr.2.length))
      = [(100, 42)] := by
  decide

/-- C6 amended: for more than 20 strikes, (a) when the price fetch succeeds
with a usable price, exactly 20 strikes are retained and every retained
strike is at least as close to the price as every dropped one; (b) when the
price fetch raises, the retained strikes are the 20-element slice of the
ascending-sorted strike list starting 10 places before the middle index;
(c) when the price fetch succeeds but yields no usable price, all strikes
are retained un-narrowed; and in every case each expiration of the returned
mapping carries one Call and one Put per retained strike. -/
theorem C6_amended_strike_narrowing (symbol exchange : String) (env : ChainEnv)
    (hcr : env.chainRaises = false) (hce : env.chainsEmpty = false)
    (hlen : 20 < env.strikes.length) :
    (env.priceReqRaises = false → ∀ p, tickerPrice env.ticker = some p →
      (narrowStrikes env env.strikes).length = 20 ∧
      ∃ rest, ((narrowStrikes env env.strikes) ++ rest).Perm env.strikes ∧
        ∀ x ∈ narrowStrikes env env.strikes, ∀ y ∈ rest,
          |x - p| ≤ |y - p|) ∧
    (env.priceReqRaises = true →
      (narrowStrikes env env.strikes).length = 20 ∧
      ∃ s t, s ++ narrowStrikes env env.strikes ++ t
          = env.strikes.insertionSort (· ≤ ·) ∧
        s.length = env.strikes.length / 2 - 10) ∧
    (env.priceReqRaises = false → tickerPrice env.ticker = none →
      narrowStrikes env env.strikes = env.strikes) ∧
    (get_option_chain symbol exchange env).map Prod.fst = env.expirations ∧
    ∀ pr ∈ get_option_chain symbol exchange env,
      ((pr.2.filter fun c => c.right = OptRight.C).map OptionContract.strike
        = (narrowStrikes env env.strikes).insertionSort (· ≤ ·) ∧
       (pr.2.filter fun c => c.right = OptRight.P).map OptionContract.strike
        = (narrowStrikes env env.strikes).insertionSort (· ≤ ·)) := by
  refine ⟨?_, ?_, ?_, ?_, ?_⟩
  · intro hpr p hp
    have hn : narrowStrikes env env.strikes = nearestTwenty p env.strikes := by
      rw [narrowStrikes, if_pos hlen, hpr, hp]
      simp
    rw [hn]
    exact nearestTwenty_spec p env.strikes hlen
  · intro hpr
    have hn : narrowStrikes env env.strikes = middleSlice env.strikes := by
      rw [narrowStrikes, if_pos hlen, hpr]
      simp [hlen]
    rw [hn]
    exact middleSlice_spec env.strikes hlen
  · intro hpr hp
    rw [narrowStrikes, if_pos hlen, hpr, hp]
    simp
  · simp only [get_option_chain, hcr, hce, Bool.false_eq_true, if_false,
      List.map_map]
    show List.map id env.expirations = env.expirations
    exact List.map_id env.expirations
  · intro pr hpr
    simp only [get_option_chain, hcr, hce, Bool.false_eq_true, if_false,
      List.mem_map] at hpr
    obtain ⟨e, -, hpe⟩ := hpr
    rw [← hpe]
    exact mkOptions_strikes symbol exchange e (narrowStrikes env env.strikes)

/-- A chain environment with 21 strikes and a live price of 110. -/
def c6PriceEnv : ChainEnv :=
  { c6FalsyEnv with ticker := { last := some 110, close := none } }

/-- Witness for C6's amended theorem: with a live price of 110, exactly 20
of the 21 strikes are retained and the single expiration is mapped. -/
theorem C6_amended_witness :
    (narrowStrikes c6PriceEnv c6PriceEnv.strikes).length = 20 ∧
    (get_option_chain "SPY" "SMART" c6PriceEnv).map Prod.fst = [100] := by
  have h := C6_amended_strike_narrowing "SPY" "SMART" c6PriceEnv
    rfl rfl (by decide)
  exact ⟨((h.1 rfl 110 (by decide)).1), h.2.2.2.1.trans (by decide)⟩

/-- A chain environment with 21 strikes whose underlying-price fetch raises:
the inner `except` handler catches, narrows to the middle 20 strikes, and
the operation still returns a non-empty mapping. -/
def c9InnerRaiseEnv : ChainEnv :=
  { c6FalsyEnv with priceReqRaises := true }

/-- C9 counterexample: the claim states that any exception raised during the
remote interaction of a MarketDataService operation is converted into an
empty result of the operation's shape.  But in `get_option_chain` an
exception of the underlying-price fetch (`reqMktData`, a remote
interaction) is caught by the inner handler and the operation continues
with the middle-20 fallback: here it returns a one-entry mapping with 40
contracts, not the empty mapping. -/
theorem C9_counterexample :
    c9InnerRaiseEnv.priceReqRaises = true ∧
    ((get_option_chain "SPY" "SMART" c9InnerRaiseEnv).map
        fun pr => (pr.1, pr.2.length)) = [(100, 40)] := by
  decide

/-- C9 amended: exceptions of the bar request, of the chain-metadata
request, of the quote subscription in `get_atm_options`, and of the quote
subscription in `get_option_greeks` are caught and produce the empty result
of the operation's shape, and the model is a total function (nothing
propagates); but an exception of the price fetch inside `get_option_chain`
is caught internally and the operation still returns one mapping entry per
listed expiration rather than the empty mapping. -/
theorem C9_amended_error_policy (benv : BarsEnv) (cenv : ChainEnv)
    (aenv : AtmEnv) (genv : GreeksEnv) (symbol exchange : String)
    (expirationArg : Option Int) (side : Side) (off : Int) :
    (benv.reqRaises = true → get_historical_bars benv = []) ∧
    (cenv.chainRaises = true → get_option_chain symbol exchange cenv = []) ∧
    ((aenv.reqOpenRaises = true ∨ aenv.sleepRaises = true ∨
        aenv.chainRaises = true) →
      (get_atm_options symbol exchange aenv expirationArg side off).2 = []) ∧
    ((genv.reqRaises = true ∨ genv.sleepRaises = true) →
      (get_option_greeks genv).2 = none) ∧
    (cenv.chainRaises = false → cenv.chainsEmpty = false →
      (get_option_chain symbol exchange cenv).length
        = cenv.expirations.length) := by
  refine ⟨?_, ?_, ?_, ?_, ?_⟩
  · intro h
    simp [get_historical_bars, h]
  · intro h
    simp [get_option_chain, h]
  · intro h
    rcases h with h | h | h
    · simp [get_atm_options, h]
    · cases h1 : aenv.reqOpenRaises <;>
        simp [get_atm_options, h, h1]
    · cases h1 : aenv.reqOpenRaises <;>
        cases h2 : aenv.sleepRaises <;>
        cases ht : tickerPrice aenv.ticker <;>
        simp [get_atm_options, h, h1, h2, ht]
  · intro h
    rcases h with h | h
    · simp [get_option_greeks, h]
    · cases h1 : genv.reqRaises <;> simp [get_option_greeks, h, h1]
  · intro h1 h2
    simp [get_option_chain, h1, h2]

/-- Witness for C9's amended theorem: a raising bar request yields the empty
frame, a raising greeks request yields the empty record, and the
inner-raise chain environment keeps its one expiration entry. -/
theorem C9_witness :
    get_historical_bars { reqRaises := true, bars := [] } = [] ∧
    (get_option_greeks { reqRaises := true, sleepRaises := false,
                         ticker := greeksTickerNone }).2 = none ∧
    (get_option_chain "SPY" "SMART" c9InnerRaiseEnv).length
      = c9InnerRaiseEnv.expirations.length := by
  have h := C9_amended_error_policy { reqRaises := true, bars := [] }
    c9InnerRaiseEnv atmEnv120
    { reqRaises := true, sleepRaises := false, ticker := greeksTickerNone }
    "SPY" "SMART" none Side.BOTH 0
  exact ⟨h.1 rfl, h.2.2.2.1 (Or.inl rfl), h.2.2.2.2 rfl rfl⟩

end TraderOrch
